import Mathlib

/-!
Shallow embedding of the WealthPilot market-data aggregation and
portfolio-snapshot engine (services `stockData.js` and
`snapshotService.js`), together with theorems settling the frozen claims
about that code.

Modelling conventions:
* JavaScript numbers are modelled by `ℚ` (prices) and `ℤ` (epoch
  milliseconds, integer volumes).  Floating-point rounding is not at issue
  in any claim.
* `Date` values are epoch milliseconds (`ℤ`); `setHours(0,0,0,0)` is
  modelled as flooring to a multiple of one day (`truncDay`); the local
  time-zone offset is not modelled.
* Asynchronous database / HTTP effects are modelled by passing the store
  states explicitly and by "world" records that fix the outcome of each
  external call (provider responses, transaction success).  A rejected
  promise is an `Except.error`.
* JavaScript truthiness on numbers (`x || d` yields `d` for `0`, `NaN`,
  `null`/`undefined`) is modelled by `jsOr` on `Option ℚ` where `none`
  stands for a missing/unparseable value.
-/

namespace WealthPilot

/-- `ONE_DAY_MS` from `stockData.js`: `24 * 60 * 60 * 1000`. -/
def ONE_DAY_MS : ℤ := 24 * 60 * 60 * 1000

/-- `date.setHours(0,0,0,0)`: truncate an epoch-millisecond timestamp to
midnight (floor to a multiple of one day). -/
def truncDay (t : ℤ) : ℤ := ONE_DAY_MS * (t / ONE_DAY_MS)

/-- JavaScript `a || d` on a numeric value `a` that may be missing
(`null`/`undefined`/`NaN`, modelled `none`) or zero: both cases fall to
the default. -/
def jsOr (a : Option ℚ) (d : ℚ) : ℚ :=
  match a with
  | some x => if x = 0 then d else x
  | none => d

/-- JavaScript `x ? BigInt(x) : null` on an optional integer: `0` is
falsy, so a zero value becomes `null`. -/
def jsTruthyInt (v : Option ℤ) : Option ℤ :=
  match v with
  | some x => if x = 0 then none else some x
  | none => none

/-- `symbol.toUpperCase()`. -/
def jsToUpper (s : String) : String := String.mk (s.data.map Char.toUpper)

/- ============================================================
   Quote side (`stockData.js`): provider adapters and `getQuote`
   ============================================================ -/

/-- The normalized object returned by a successful provider adapter
(`fetchFromFMP`, `fetchFromFinnhub`, ..., in `stockData.js`): already
mapped to the canonical field set. -/
structure FetchResult where
  symbol : String
  name : String
  price : ℚ
  previousClose : ℚ
  openPrice : ℚ
  high : ℚ
  low : ℚ
  volume : Option ℤ
  marketCap : Option ℤ
  changeAmount : ℚ
  changePercent : ℚ
  src : String
deriving DecidableEq, Repr

/-- A row of the `stockQuote` table: the persisted cache entry for a
symbol, with Prisma's `updatedAt` timestamp. -/
structure StoredQuote where
  symbol : String
  name : String
  price : ℚ
  previousClose : ℚ
  openPrice : ℚ
  high : ℚ
  low : ℚ
  volume : Option ℤ
  marketCap : Option ℤ
  changeAmount : ℚ
  changePercent : ℚ
  updatedAt : ℤ
deriving DecidableEq, Repr

/-- The `stockQuote` table (one logical row per symbol). -/
abbrev QuoteDB := List StoredQuote

/-- `prisma.stockQuote.findUnique({ where: { symbol } })`. -/
def findQuote (db : QuoteDB) (symbol : String) : Option StoredQuote :=
  db.find? (fun r => r.symbol == symbol)

/-- `prisma.stockQuote.upsert` keyed by `symbol`: replace the first row
with that key, else append a new row. -/
def upsertQuote : QuoteDB → StoredQuote → QuoteDB
  | [], q => [q]
  | r :: rest, q =>
    if r.symbol == q.symbol then q :: rest else r :: upsertQuote rest q

/-- The `quoteData` object built in `getQuote` from a winning adapter
result (the stored row; Prisma stamps `updatedAt = now`). -/
def toQuoteData (upperSymbol : String) (r : FetchResult) (now : ℤ) : StoredQuote :=
  { symbol := upperSymbol
    name := r.name
    price := r.price
    previousClose := r.previousClose
    openPrice := r.openPrice
    high := r.high
    low := r.low
    volume := jsTruthyInt r.volume
    marketCap := jsTruthyInt r.marketCap
    changeAmount := r.changeAmount
    changePercent := r.changePercent
    updatedAt := now }

/-- One entry per adapter in the fixed `sources` list of `getQuote`.
`none` models a thrown error or a `null` return from `source.fn`;
`some r` models a returned quote object. -/
abbrev AdapterOutcome := Option FetchResult

/-- The `for (const source of sources)` loop of `getQuote`: walk the
adapters in order until one returns a result with `price > 0`; also count
how many adapters were invoked.  A failure (`none`) or an invalid price
never aborts the walk. -/
def tryAdapters : List AdapterOutcome → Option FetchResult × ℕ
  | [] => (none, 0)
  | a :: rest =>
    match a with
    | some r =>
      if 0 < r.price then (some r, 1)
      else
        let p := tryAdapters rest
        (p.1, p.2 + 1)
    | none =>
      let p := tryAdapters rest
      (p.1, p.2 + 1)

/-- Result of one `getQuote` call: the returned value, the number of
provider adapters invoked, and the `stockQuote` table afterwards. -/
structure GetQuoteResult where
  quote : Option StoredQuote
  adapterCalls : ℕ
  db : QuoteDB
deriving DecidableEq, Repr

/-- The fetch path of `getQuote` (everything after the fresh-cache
short-circuit): run the adapter chain; on success build `quoteData`,
upsert it (a cache-write failure is caught and swallowed: `.catch(...)`),
and return it; on exhaustion return the previously looked-up cache row if
any, else `null`. -/
def getQuoteFetch (db : QuoteDB) (cached : Option StoredQuote) (now : ℤ)
    (adapters : List AdapterOutcome) (cacheUpsertFails : Bool)
    (upperSymbol : String) : GetQuoteResult :=
  let p := tryAdapters adapters
  match p.1 with
  | some r =>
    let quoteData := toQuoteData upperSymbol r now
    let db' := if cacheUpsertFails then db else upsertQuote db quoteData
    ⟨some quoteData, p.2, db'⟩
  | none =>
    match cached with
    | some c => ⟨some c, p.2, db⟩
    | none => ⟨none, p.2, db⟩

/-- `getQuote(symbol)` from `stockData.js`: uppercase the symbol, look up
the cached row; if it is younger than 30 000 ms return it unchanged with
no provider calls; otherwise run the adapter chain via `getQuoteFetch`. -/
def getQuote (db : QuoteDB) (now : ℤ) (adapters : List AdapterOutcome)
    (cacheUpsertFails : Bool) (symbol : String) : GetQuoteResult :=
  let upperSymbol := jsToUpper symbol
  let cached := findQuote db upperSymbol
  match cached with
  | some c =>
    if now - c.updatedAt < 30000 then ⟨some c, 0, db⟩
    else getQuoteFetch db cached now adapters cacheUpsertFails upperSymbol
  | none => getQuoteFetch db none now adapters cacheUpsertFails upperSymbol

/- ============================================================
   History side (`stockData.js`): `getHistoricalData`,
   `getStoredHistoricalData`, `fetchAndStoreHistoricalData`
   ============================================================ -/

/-- A row of the `stockHistory` table (one OHLCV record), keyed by
`(symbol, date)`.  Also the shape returned to callers (the JS code
converts `volume` from `BigInt` to `Number` on the way out; both are `ℤ`
here). -/
structure HistoryRow where
  symbol : String
  date : ℤ
  openPrice : ℚ
  high : ℚ
  low : ℚ
  close : ℚ
  adjClose : ℚ
  volume : ℤ
deriving DecidableEq, Repr

/-- The `stockHistory` table. -/
abbrev HistoryDB := List HistoryRow

/-- Comparison used by `orderBy: { date: 'asc' }`. -/
def dateLe (a b : HistoryRow) : Prop := a.date ≤ b.date

instance : DecidableRel dateLe := fun a b => inferInstanceAs (Decidable (a.date ≤ b.date))

instance : IsTotal HistoryRow dateLe := ⟨fun a b => Int.le_total a.date b.date⟩

instance : IsTrans HistoryRow dateLe := ⟨fun _ _ _ h1 h2 => le_trans h1 h2⟩

/-- `orderBy: { date: 'asc' }` on a row multiset. -/
def sortByDate (l : List HistoryRow) : List HistoryRow := List.insertionSort dateLe l

/-- `getStoredHistoricalData(symbol, days)`:
`prisma.stockHistory.findMany({ where: { symbol, date: { gte: startDate } },
orderBy: { date: 'asc' } })` with `startDate = now - days * ONE_DAY_MS`. -/
def getStoredHistoricalData (hdb : HistoryDB) (now : ℤ) (symbol : String)
    (days : ℤ) : List HistoryRow :=
  let startDate := now - days * ONE_DAY_MS
  sortByDate (hdb.filter (fun r => r.symbol == symbol && startDate ≤ r.date))

/-- One raw row of a Twelve Data `time_series` response.  The numeric
fields arrive as strings; `none` models an unparseable value
(`parseFloat` giving `NaN`), and the `|| 0` fallbacks are applied in the
mapping. -/
structure TwelveDataRow where
  datetime : ℤ
  openRaw : Option ℚ
  highRaw : Option ℚ
  lowRaw : Option ℚ
  closeRaw : Option ℚ
  volumeRaw : Option ℤ
deriving DecidableEq, Repr

/-- The per-row mapping of the Twelve Data branch of
`fetchAndStoreHistoricalData` (`adjClose` is a copy of `close`;
`volume: BigInt(row.volume || 0)`). -/
def mapTwelveDataRow (symbol : String) (row : TwelveDataRow) : HistoryRow :=
  { symbol := symbol
    date := row.datetime
    openPrice := jsOr row.openRaw 0
    high := jsOr row.highRaw 0
    low := jsOr row.lowRaw 0
    close := jsOr row.closeRaw 0
    adjClose := jsOr row.closeRaw 0
    volume := row.volumeRaw.getD 0 }

/-- One raw row of a `yahoo-finance2 historical` response. -/
structure YahooRow where
  date : ℤ
  openRaw : Option ℚ
  highRaw : Option ℚ
  lowRaw : Option ℚ
  closeRaw : Option ℚ
  adjCloseRaw : Option ℚ
  volumeRaw : Option ℤ
deriving DecidableEq, Repr

/-- The per-row mapping of the Yahoo branch
(`adjClose: row.adjClose || row.close || 0`). -/
def mapYahooRow (symbol : String) (row : YahooRow) : HistoryRow :=
  { symbol := symbol
    date := row.date
    openPrice := jsOr row.openRaw 0
    high := jsOr row.highRaw 0
    low := jsOr row.lowRaw 0
    close := jsOr row.closeRaw 0
    adjClose := jsOr row.adjCloseRaw (jsOr row.closeRaw 0)
    volume := row.volumeRaw.getD 0 }

/-- One raw row of an FMP `historical-price-full` response (numeric JSON
fields; `adjClose` may be absent). -/
structure FMPRow where
  date : ℤ
  openPrice : ℚ
  high : ℚ
  low : ℚ
  close : ℚ
  adjCloseRaw : Option ℚ
  volumeRaw : Option ℤ
deriving DecidableEq, Repr

/-- The per-row mapping of the FMP branch
(`adjClose: row.adjClose || row.close`; note: no `.reverse()` here). -/
def mapFMPRow (symbol : String) (row : FMPRow) : HistoryRow :=
  { symbol := symbol
    date := row.date
    openPrice := row.openPrice
    high := row.high
    low := row.low
    close := row.close
    adjClose := jsOr row.adjCloseRaw row.close
    volume := row.volumeRaw.getD 0 }

/-- Outcome of the three provider attempts available to
`fetchAndStoreHistoricalData`.  For each provider, `none` models a thrown
error or an error payload (the branch's guard failing); `some rows`
models a payload that passes the branch's guard.  For Twelve Data and
FMP an empty array passes the guard (an empty JS array is truthy); the
Yahoo branch additionally checks `result.length > 0`. -/
structure HistoryProviders where
  twelveData : Option (List TwelveDataRow)
  yahoo : Option (List YahooRow)
  fmp : Option (List FMPRow)
deriving DecidableEq, Repr

/-- The three sequential strategy blocks of `fetchAndStoreHistoricalData`:
each later block runs only while `historyData` is still `null` (an empty
array from an earlier block is truthy and stops the chain).  The Twelve
Data batch is reversed (`// Twelve Data returns newest first`); the Yahoo
and FMP batches keep the provider's order.  Also counts the provider
attempts made. -/
def selectHistoryBatch (symbol : String) (p : HistoryProviders) :
    Option (List HistoryRow) × ℕ :=
  match p.twelveData with
  | some rows => (some ((rows.map (mapTwelveDataRow symbol)).reverse), 1)
  | none =>
    match p.yahoo with
    | some rows =>
      if rows.length > 0 then (some (rows.map (mapYahooRow symbol)), 2)
      else
        match p.fmp with
        | some rows' => (some (rows'.map (mapFMPRow symbol)), 3)
        | none => (none, 3)
    | none =>
      match p.fmp with
      | some rows' => (some (rows'.map (mapFMPRow symbol)), 3)
      | none => (none, 3)

/-- `tx.stockHistory.createMany({ data, skipDuplicates: true })`: insert
the rows in order, skipping any row whose `(symbol, date)` key already
occurs in the table (which includes rows inserted earlier in the same
batch). -/
def insertSkipDup (db : HistoryDB) (rows : List HistoryRow) : HistoryDB :=
  rows.foldl
    (fun acc r =>
      if acc.any (fun x => x.symbol == r.symbol && x.date == r.date) then acc
      else acc ++ [r])
    db

/-- A row of the `stockMetadata` table. -/
structure StockMetadataRow where
  symbol : String
  name : Option String
  historyStartDate : Option ℤ
  historyEndDate : Option ℤ
  lastFetchedAt : Option ℤ
deriving DecidableEq, Repr

/-- The `stockMetadata` table. -/
abbrev MetaDB := List StockMetadataRow

/-- `prisma.stockMetadata.findUnique({ where: { symbol } })`. -/
def findMeta (mdb : MetaDB) (symbol : String) : Option StockMetadataRow :=
  mdb.find? (fun r => r.symbol == symbol)

/-- The `tx.stockMetadata.upsert` of the history transaction: the update
payload sets only the two date bounds and `lastFetchedAt`; the create
payload has no `name`. -/
def upsertMetaHistory : MetaDB → String → Option ℤ → Option ℤ → ℤ → MetaDB
  | [], symbol, s, e, now => [⟨symbol, none, s, e, some now⟩]
  | m :: rest, symbol, s, e, now =>
    if m.symbol == symbol then
      { m with historyStartDate := s, historyEndDate := e,
               lastFetchedAt := some now } :: rest
    else m :: upsertMetaHistory rest symbol s e now

/-- The body of the `prisma.$transaction` in `fetchAndStoreHistoricalData`,
as one atomic state transition: delete every `stockHistory` row of the
symbol, bulk-insert the new batch with duplicate keys skipped, and upsert
`stockMetadata` with `historyStartDate = historyData[length-1]?.date`,
`historyEndDate = historyData[0]?.date`, `lastFetchedAt = now`. -/
def applyHistoryTx (hdb : HistoryDB) (mdb : MetaDB) (symbol : String)
    (batch : List HistoryRow) (now : ℤ) : HistoryDB × MetaDB :=
  let deleted := hdb.filter (fun r => !(r.symbol == symbol))
  let inserted := insertSkipDup deleted batch
  let startD := (batch.getLast?).map (fun r => r.date)
  let endD := (batch.head?).map (fun r => r.date)
  (inserted, upsertMetaHistory mdb symbol startD endD now)

/-- Result of the fetch-and-store path: the value the promise resolves
with (`Except.error` would be a rejection), the number of provider
attempts, and both tables afterwards. -/
structure HistoryFetchResult where
  result : Except String (List HistoryRow)
  networkCalls : ℕ
  historyDb : HistoryDB
  metaDb : MetaDB
deriving Repr

/-- `fetchAndStoreHistoricalData(symbol)`: run the provider strategy
chain; if a non-empty batch was obtained, run the transaction — on a
database error the `catch (dbError)` logs it and execution falls through
to the stored-data fallback (so the tables are left as they were, the
transaction having rolled back).  In every other case (no batch, or an
empty batch) fall through to `getStoredHistoricalData(symbol)` with its
default window of `365 * 5` days. -/
def fetchAndStoreHistoricalData (hdb : HistoryDB) (mdb : MetaDB) (now : ℤ)
    (p : HistoryProviders) (txFails : Bool) (symbol : String) :
    HistoryFetchResult :=
  let sel := selectHistoryBatch symbol p
  match sel.1 with
  | some batch =>
    if batch.length > 0 then
      if txFails then
        ⟨.ok (getStoredHistoricalData hdb now symbol (365 * 5)), sel.2, hdb, mdb⟩
      else
        let st := applyHistoryTx hdb mdb symbol batch now
        ⟨.ok batch, sel.2, st.1, st.2⟩
    else
      ⟨.ok (getStoredHistoricalData hdb now symbol (365 * 5)), sel.2, hdb, mdb⟩
  | none =>
    ⟨.ok (getStoredHistoricalData hdb now symbol (365 * 5)), sel.2, hdb, mdb⟩

/-- The freshness test at the top of `getHistoricalData`: unless
`forceRefresh`, true when `stockMetadata.lastFetchedAt` exists and is
younger than 24 hours. -/
def historyFresh (mdb : MetaDB) (upperSymbol : String) (now : ℤ)
    (forceRefresh : Bool) : Bool :=
  if forceRefresh then false
  else
    match findMeta mdb upperSymbol with
    | some m =>
      match m.lastFetchedAt with
      | some t => now - t < ONE_DAY_MS
      | none => false
    | none => false

/-- `getHistoricalData(symbol, { days, forceRefresh })`: uppercase the
symbol; when the metadata is fresh serve straight from the store (zero
provider calls); otherwise refetch via `fetchAndStoreHistoricalData`. -/
def getHistoricalData (hdb : HistoryDB) (mdb : MetaDB) (now : ℤ)
    (p : HistoryProviders) (txFails : Bool) (symbol : String) (days : ℤ)
    (forceRefresh : Bool) : HistoryFetchResult :=
  let upperSymbol := jsToUpper symbol
  if historyFresh mdb upperSymbol now forceRefresh then
    ⟨.ok (getStoredHistoricalData hdb now upperSymbol days), 0, hdb, mdb⟩
  else fetchAndStoreHistoricalData hdb mdb now p txFails upperSymbol

/- ============================================================
   Snapshot engine (`snapshotService.js`)
   ============================================================ -/

/-- A holding as read by the snapshot service (the fields it uses). -/
structure Holding where
  symbol : String
  shares : ℚ
  avgCostBasis : ℚ
deriving DecidableEq, Repr

/-- A row of the `portfolioSnapshot` table, unique per `(userId, date)`. -/
structure PortfolioSnapshot where
  userId : String
  date : ℤ
  totalValue : ℚ
  totalCost : ℚ
  dayGain : ℚ
deriving DecidableEq, Repr

/-- The `portfolioSnapshot` table. -/
abbrev SnapDB := List PortfolioSnapshot

/-- `prisma.portfolioSnapshot.upsert({ where: { userId_date: ... } })`:
replace the first row with that composite key (the update payload sets
the three totals), else create the row. -/
def upsertSnapshot : SnapDB → String → ℤ → ℚ → ℚ → ℚ → SnapDB
  | [], userId, date, tv, tc, dg => [⟨userId, date, tv, tc, dg⟩]
  | s :: rest, userId, date, tv, tc, dg =>
    if s.userId == userId && s.date == date then
      ⟨s.userId, s.date, tv, tc, dg⟩ :: rest
    else s :: upsertSnapshot rest userId date tv tc dg

/-- Number of rows with a given `(userId, date)` key. -/
def countSnapKey (sdb : SnapDB) (userId : String) (date : ℤ) : ℕ :=
  (sdb.filter (fun s => s.userId == userId && s.date == date)).length

/-- The two quote fields the snapshot service reads
(`quote.price`, `quote.changeAmount`). -/
structure QuoteLite where
  price : ℚ
  changeAmount : ℚ
deriving DecidableEq, Repr

/-- `[...new Set(xs)]`: dedupe keeping first occurrences, in order. -/
def jsSetDedup (l : List String) : List String :=
  l.foldl (fun acc s => if acc.contains s then acc else acc ++ [s]) []

/-- `getQuotes(symbols)`: call `getQuote` per symbol (abstracted here as
`fetch`, `none` when it resolved to `null`) and key each non-null result
by the uppercased symbol.  Symbols that fail entirely are absent. -/
def getQuotesModel (fetch : String → Option QuoteLite) (symbols : List String) :
    List (String × QuoteLite) :=
  symbols.foldl
    (fun acc s =>
      match fetch s with
      | some q => acc ++ [(jsToUpper s, q)]
      | none => acc)
    []

/-- `quotes[sym]`: property lookup in the result object of `getQuotes`. -/
def lookupQuote (quotes : List (String × QuoteLite)) (sym : String) :
    Option QuoteLite :=
  (quotes.find? (fun e => e.1 == sym)).map (fun e => e.2)

/-- One holding's step of the `allHoldings.forEach` accumulation of
`recordDailySnapshot`: a holding whose symbol is absent from the quotes
map falls back to `{ price: h.avgCostBasis, changeAmount: 0 }`, and the
day-gain term is `shares * (quote.changeAmount || 0)`. -/
def recordStep (quotes : List (String × QuoteLite)) (t : ℚ × ℚ × ℚ)
    (h : Holding) : ℚ × ℚ × ℚ :=
  let q := (lookupQuote quotes h.symbol).getD ⟨h.avgCostBasis, 0⟩
  (t.1 + h.shares * q.price,
   t.2.1 + h.shares * h.avgCostBasis,
   t.2.2 + h.shares * jsOr (some q.changeAmount) 0)

/-- The whole accumulation: `(totalValue, totalCost, totalDayGain)`. -/
def recordTotals (quotes : List (String × QuoteLite)) (holdings : List Holding) :
    ℚ × ℚ × ℚ :=
  holdings.foldl (recordStep quotes) (0, 0, 0)

/-- `recordDailySnapshot(userId)` with every database operation
succeeding: compute today's totals from live quotes and upsert the
`(userId, today)` snapshot.  Returns the value the promise resolves with
and the `portfolioSnapshot` table afterwards.  `portfolios` is the result
of the `prisma.portfolio.findMany` (one holdings list per portfolio). -/
def recordDailySnapshot (sdb : SnapDB) (portfolios : List (List Holding))
    (fetch : String → Option QuoteLite) (userId : String) (now : ℤ) :
    Option PortfolioSnapshot × SnapDB :=
  let today := truncDay now
  if portfolios.length = 0 then (none, sdb)
  else
    let allHoldings := portfolios.flatten
    if allHoldings.length = 0 then (none, sdb)
    else
      let symbols := jsSetDedup (allHoldings.map (fun h => h.symbol))
      let quotes := getQuotesModel fetch symbols
      let t := recordTotals quotes allHoldings
      let snap : PortfolioSnapshot := ⟨userId, today, t.1, t.2.1, t.2.2⟩
      (some snap, upsertSnapshot sdb userId today t.1 t.2.1 t.2.2)

/-- The per-symbol history query of `generateHistoricalSnapshots`:
`findMany({ where: { symbol }, orderBy: { date: 'asc' }, take: days })` —
the first `days` rows of the ascending order. -/
def histTake (hdb : HistoryDB) (symbol : String) (days : ℕ) : List HistoryRow :=
  (sortByDate (hdb.filter (fun r => r.symbol == symbol))).take days

/-- `history.find(h => midnight(h.date) === date)`. -/
def findDay (history : List HistoryRow) (date : ℤ) : Option HistoryRow :=
  history.find? (fun r => truncDay r.date == date)

/-- Per-day accumulator of the backfill loop. -/
structure DayTotals where
  totalValue : ℚ
  totalCost : ℚ
  prevDayValue : ℚ
  hasData : Bool
deriving DecidableEq, Repr

/-- One holding's step of the inner `for (const holding of allHoldings)`
loop: with a history point at the day, add `shares * close` and use the
previous day's close (or, if absent, the same day's close) as baseline;
without one, add the flat `shares * avgCostBasis` everywhere. -/
def holdingDayStep (histOf : String → List HistoryRow) (date : ℤ)
    (t : DayTotals) (h : Holding) : DayTotals :=
  let history := histOf h.symbol
  match findDay history date with
  | some dayData =>
    let prevDate := date - ONE_DAY_MS
    let prevClose :=
      match findDay history prevDate with
      | some prevData => prevData.close
      | none => dayData.close
    ⟨t.totalValue + h.shares * dayData.close,
     t.totalCost + h.shares * h.avgCostBasis,
     t.prevDayValue + h.shares * prevClose, true⟩
  | none =>
    ⟨t.totalValue + h.shares * h.avgCostBasis,
     t.totalCost + h.shares * h.avgCostBasis,
     t.prevDayValue + h.shares * h.avgCostBasis, t.hasData⟩

/-- The whole inner loop for one day. -/
def dayTotals (histOf : String → List HistoryRow) (holdings : List Holding)
    (date : ℤ) : DayTotals :=
  holdings.foldl (holdingDayStep histOf date) ⟨0, 0, 0, false⟩

/-- One iteration of the `for (let i = days; i >= 0; i--)` loop of
`generateHistoricalSnapshots`: day `i` is `today - i` days; a snapshot is
upserted and pushed when the day had data or `i === 0`; `upsertOk` models
the inner `try`/`catch` (a failed upsert is skipped, not surfaced). -/
def genStep (histOf : String → List HistoryRow) (holdings : List Holding)
    (userId : String) (today : ℤ) (upsertOk : ℤ → Bool)
    (acc : List PortfolioSnapshot × SnapDB) (i : ℕ) :
    List PortfolioSnapshot × SnapDB :=
  let date := today - (i : ℤ) * ONE_DAY_MS
  let t := dayTotals histOf holdings date
  if t.hasData = true ∨ i = 0 then
    let dayGain := t.totalValue - t.prevDayValue
    if upsertOk date then
      (acc.1 ++ [⟨userId, date, t.totalValue, t.totalCost, dayGain⟩],
       upsertSnapshot acc.2 userId date t.totalValue t.totalCost dayGain)
    else acc
  else acc

/-- The snapshot that iteration `i` appends, if any. -/
def genEmit (histOf : String → List HistoryRow) (holdings : List Holding)
    (userId : String) (today : ℤ) (upsertOk : ℤ → Bool) (i : ℕ) :
    Option PortfolioSnapshot :=
  let date := today - (i : ℤ) * ONE_DAY_MS
  let t := dayTotals histOf holdings date
  if t.hasData = true ∨ i = 0 then
    if upsertOk date then
      some ⟨userId, date, t.totalValue, t.totalCost, t.totalValue - t.prevDayValue⟩
    else none
  else none

/-- The whole `for (let i = days; i >= 0; i--)` loop. -/
def genSnapshotsLoop (histOf : String → List HistoryRow)
    (holdings : List Holding) (userId : String) (today : ℤ) (days : ℕ)
    (upsertOk : ℤ → Bool) (sdb : SnapDB) : List PortfolioSnapshot × SnapDB :=
  ((List.range (days + 1)).reverse).foldl
    (genStep histOf holdings userId today upsertOk) ([], sdb)

/-- `generateHistoricalSnapshots(userId, days)` with every database
operation succeeding: load each symbol's first `days` stored history rows
(ascending), then run the backfill loop.  (The `historicalData` object is
keyed by symbol, so deduplication of the symbol list does not affect the
lookups.) -/
def generateHistoricalSnapshots (sdb : SnapDB) (hdb : HistoryDB)
    (portfolios : List (List Holding)) (userId : String) (now : ℤ)
    (days : ℕ) : List PortfolioSnapshot × SnapDB :=
  let allHoldings := portfolios.flatten
  if allHoldings.length = 0 then ([], sdb)
  else
    genSnapshotsLoop (fun sym => histTake hdb sym days) allHoldings userId
      (truncDay now) days (fun _ => true) sdb

/- ============================================================
   Error-world wrappers for the snapshot service (claim C10)
   ============================================================ -/

/-- Outcomes of the external calls made by `recordDailySnapshot`; an
`Except.error` models a rejected promise inside the `try` block. -/
structure RecordWorld where
  portfoliosRes : Except String (List (List Holding))
  quotesRes : Except String (String → Option QuoteLite)
  upsertRes : Except String Unit

/-- The `try` body of `recordDailySnapshot`, before the `catch`. -/
def recordDailySnapshotBody (sdb : SnapDB) (w : RecordWorld) (userId : String)
    (now : ℤ) : Except String (Option PortfolioSnapshot × SnapDB) := do
  let today := truncDay now
  let portfolios ← w.portfoliosRes
  if portfolios.length = 0 then return (none, sdb)
  let allHoldings := portfolios.flatten
  if allHoldings.length = 0 then return (none, sdb)
  let fetch ← w.quotesRes
  let symbols := jsSetDedup (allHoldings.map (fun h => h.symbol))
  let quotes := getQuotesModel fetch symbols
  let t := recordTotals quotes allHoldings
  let _ ← w.upsertRes
  return (some ⟨userId, today, t.1, t.2.1, t.2.2⟩,
    upsertSnapshot sdb userId today t.1 t.2.1 t.2.2)

/-- `recordDailySnapshot` as exported: the `catch` turns any internal
error into a `null` return (the table is left as it was — the only write
is the final upsert, which is the step that failed). -/
def recordDailySnapshotSafe (sdb : SnapDB) (w : RecordWorld) (userId : String)
    (now : ℤ) : Option PortfolioSnapshot × SnapDB :=
  match recordDailySnapshotBody sdb w userId now with
  | .ok v => v
  | .error _ => (none, sdb)

/-- Outcomes of the external calls made by `generateHistoricalSnapshots`. -/
structure GenWorld where
  portfoliosRes : Except String (List (List Holding))
  historyRes : Except String HistoryDB
  upsertOk : ℤ → Bool

/-- The `try` body of `generateHistoricalSnapshots`, before the outer
`catch`. -/
def generateHistoricalSnapshotsBody (sdb : SnapDB) (w : GenWorld)
    (userId : String) (now : ℤ) (days : ℕ) :
    Except String (List PortfolioSnapshot × SnapDB) := do
  let portfolios ← w.portfoliosRes
  let allHoldings := portfolios.flatten
  if allHoldings.length = 0 then return ([], sdb)
  let hdb ← w.historyRes
  return genSnapshotsLoop (fun sym => histTake hdb sym days) allHoldings userId
    (truncDay now) days w.upsertOk sdb

/-- `generateHistoricalSnapshots` as exported: the outer `catch` turns any
internal error into an empty-list return. -/
def generateHistoricalSnapshotsSafe (sdb : SnapDB) (w : GenWorld)
    (userId : String) (now : ℤ) (days : ℕ) :
    List PortfolioSnapshot × SnapDB :=
  match generateHistoricalSnapshotsBody sdb w userId now days with
  | .ok v => v
  | .error _ => ([], sdb)

/- ============================================================
   Claim-side definitions (spec-facing readings used in theorems)
   ============================================================ -/

/-- Per-holding value contribution on day `date` as the spec states it:
the day's close when a loaded history point exists, else the flat
`shares * avgCostBasis` placeholder. -/
def valueContrib (histOf : String → List HistoryRow) (date : ℤ) (h : Holding) : ℚ :=
  match findDay (histOf h.symbol) date with
  | some d => h.shares * d.close
  | none => h.shares * h.avgCostBasis

/-- Per-holding previous-day baseline contribution on day `date`: the
previous day's close when present, the same day's close when only the day
itself is present, and the flat `shares * avgCostBasis` placeholder when
the day has no point. -/
def baselineContrib (histOf : String → List HistoryRow) (date : ℤ) (h : Holding) : ℚ :=
  match findDay (histOf h.symbol) date with
  | some d =>
    match findDay (histOf h.symbol) (date - ONE_DAY_MS) with
    | some p => h.shares * p.close
    | none => h.shares * d.close
  | none => h.shares * h.avgCostBasis

/-- The quotes map `recordDailySnapshot` builds for a holdings list. -/
def quotesFor (fetch : String → Option QuoteLite) (holdings : List Holding) :
    List (String × QuoteLite) :=
  getQuotesModel fetch (jsSetDedup (holdings.map (fun h => h.symbol)))

/-- Per-holding live price as the spec states it: the quote's price when
the symbol is present in the `getQuotes` result, else `avgCostBasis`. -/
def claimPrice (quotes : List (String × QuoteLite)) (h : Holding) : ℚ :=
  match lookupQuote quotes h.symbol with
  | some q => q.price
  | none => h.avgCostBasis

/-- Per-holding day-change as the spec states it: the quote's
`changeAmount` when present, else `0`. -/
def claimChange (quotes : List (String × QuoteLite)) (h : Holding) : ℚ :=
  match lookupQuote quotes h.symbol with
  | some q => q.changeAmount
  | none => 0

/-- A batch with later rows dropped when an earlier row has the same
`date` (what `createMany({ skipDuplicates: true })` keeps of a
single-symbol batch inserted into a table with no rows of that symbol). -/
def dedupByDate (rows : List HistoryRow) : List HistoryRow :=
  rows.foldl
    (fun acc r => if acc.any (fun x => x.date == r.date) then acc else acc ++ [r])
    []

/- ============================================================
   Concrete scenario inputs (counterexamples and witnesses)
   ============================================================ -/

/-- A one-share holding of symbol `A` at cost basis 10. -/
def holdingA : Holding := ⟨"A", 1, 10⟩

/-- Stored history for `A`: a point five days ago and a point one day
ago (both at exact midnights). -/
def hdbC1 : HistoryDB :=
  [⟨"A", -5 * ONE_DAY_MS, 1, 1, 1, 20, 20, 0⟩,
   ⟨"A", -ONE_DAY_MS, 1, 1, 1, 30, 30, 0⟩]

/-- A cached quote row for `AAPL`, last updated at t = 100000. -/
def rowAAPL : StoredQuote :=
  ⟨"AAPL", "Apple", 150, 148, 149, 151, 147, some 1000, none, 2, 1, 100000⟩

/-- A quote table holding only `rowAAPL`. -/
def dbAAPL : QuoteDB := [rowAAPL]

/-- An adapter result with a non-positive price (invalid data). -/
def badFetch : FetchResult := ⟨"AAPL", "Apple", 0, 0, 0, 0, 0, none, none, 0, 0, "fmp"⟩

/-- An existing history row for `AAPL` from an earlier fetch. -/
def oldRowAAPL : HistoryRow := ⟨"AAPL", 0, 1, 1, 1, 2, 2, 5⟩

/-- A Twelve Data payload of one row. -/
def tdRow1 : TwelveDataRow := ⟨ONE_DAY_MS, some 3, some 4, some 2, some 3, some 7⟩

/-- Two Twelve Data rows sharing one datetime but with different closes
(a duplicate `(symbol, date)` key within one batch). -/
def tdDupRows : List TwelveDataRow :=
  [⟨ONE_DAY_MS, some 9, some 9, some 9, some 9, some 1⟩,
   ⟨ONE_DAY_MS, some 7, some 7, some 7, some 7, some 2⟩]

/-- A newest-first Twelve Data payload: day 5, then day 3. -/
def tdNewestFirst : List TwelveDataRow :=
  [⟨5 * ONE_DAY_MS, some 1, some 1, some 1, some 1, some 1⟩,
   ⟨3 * ONE_DAY_MS, some 2, some 2, some 2, some 2, some 2⟩]

/-- A newest-first FMP payload: day 2, then day 1. -/
def fmpNewestFirst : List FMPRow :=
  [⟨2 * ONE_DAY_MS, 10, 11, 9, 10, some 10, some 3⟩,
   ⟨ONE_DAY_MS, 8, 9, 7, 8, some 8, some 4⟩]

/-- Metadata for `AAPL` fetched at t = 0. -/
def metaAAPL : StockMetadataRow := ⟨"AAPL", some "Apple", some 0, some 0, some 0⟩

/-- A stored history row for `AAPL` one day before t = 0. -/
def histRowAAPL : HistoryRow := ⟨"AAPL", -ONE_DAY_MS, 1, 1, 1, 3, 3, 9⟩

/-- The mapped batch of the duplicate-key Twelve Data payload (reversed,
as the Twelve Data branch stores it). -/
def batchDup : List HistoryRow := (tdDupRows.map (mapTwelveDataRow "AAPL")).reverse

/-- The mapped batch of the newest-first FMP payload (stored in provider
order: no reversal in the FMP branch). -/
def fmpDescBatch : List HistoryRow := fmpNewestFirst.map (mapFMPRow "AAPL")

/-- A ten-share AAPL holding at cost basis 150 (the spec's worked
example). -/
def holdingAAPL : Holding := ⟨"AAPL", 10, 150⟩

/-- A live-quote source returning price 160, day change +5 for `AAPL`
(the spec's worked example). -/
def fetchAAPL : String → Option QuoteLite :=
  fun s => if s == "AAPL" then some ⟨160, 5⟩ else none

/-- A world in which the portfolio query of `recordDailySnapshot`
rejects. -/
def recordWorldFail : RecordWorld := ⟨.error "db down", .ok (fun _ => none), .ok ()⟩

/-- A world in which the portfolio query of `generateHistoricalSnapshots`
rejects. -/
def genWorldFail : GenWorld := ⟨.error "db down", .ok [], fun _ => true⟩

/- ============================================================
   Helper lemmas
   ============================================================ -/

theorem tryAdapters_allFail (adapters : List AdapterOutcome)
    (hall : ∀ a ∈ adapters, ∀ r, a = some r → r.price ≤ 0) :
    tryAdapters adapters = (none, adapters.length) := by
  induction adapters with
  | nil => rfl
  | cons a rest ih =>
    have hrest : ∀ b ∈ rest, ∀ r, b = some r → r.price ≤ 0 :=
      fun b hb => hall b (List.mem_cons_of_mem a hb)
    cases a with
    | none => simp [tryAdapters, ih hrest]
    | some r =>
      have hr : r.price ≤ 0 := hall (some r) (List.mem_cons_self _ _) r rfl
      simp [tryAdapters, not_lt.mpr hr, ih hrest]

/- ============================================================
   Claim theorems
   ============================================================ -/

/-- C8: when the cached quote row for the uppercased symbol is younger
than 30 seconds, `getQuote` returns that cached row unmodified, invokes
zero provider adapters, and leaves the quote table unchanged. -/
theorem getQuote_freshCache_spec (db : QuoteDB) (now : ℤ)
    (adapters : List AdapterOutcome) (cacheUpsertFails : Bool) (symbol : String)
    (c : StoredQuote) (hc : findQuote db (jsToUpper symbol) = some c)
    (hfresh : now - c.updatedAt < 30000) :
    getQuote db now adapters cacheUpsertFails symbol = ⟨some c, 0, db⟩ := by
  simp [getQuote, hc, hfresh]

/-- C8 witness: a cache row 10 seconds old is returned as-is with zero
adapter calls and an unchanged table. -/
theorem getQuote_freshCache_spec_witness :
    getQuote dbAAPL 110000 [none, some badFetch] false "AAPL" =
      ⟨some rowAAPL, 0, dbAAPL⟩ :=
  getQuote_freshCache_spec dbAAPL 110000 [none, some badFetch] false "AAPL"
    rowAAPL (by decide) (by decide)

/-- C7: when every adapter fails or returns a non-positive price,
`getQuote` returns exactly the cached row for the uppercased symbol when
one exists and `null` otherwise; and whenever the adapter chain runs at
all (no fresh-cache short-circuit), every adapter is still tried — an
individual failure never aborts the iteration. -/
theorem getQuote_allFail_spec (db : QuoteDB) (now : ℤ)
    (adapters : List AdapterOutcome) (cacheUpsertFails : Bool) (symbol : String)
    (hall : ∀ a ∈ adapters, ∀ r, a = some r → r.price ≤ 0) :
    (getQuote db now adapters cacheUpsertFails symbol).quote =
      findQuote db (jsToUpper symbol) ∧
    ((∀ c, findQuote db (jsToUpper symbol) = some c → 30000 ≤ now - c.updatedAt) →
      (getQuote db now adapters cacheUpsertFails symbol).adapterCalls =
        adapters.length) := by
  have htry := tryAdapters_allFail adapters hall
  cases hfind : findQuote db (jsToUpper symbol) with
  | none =>
    constructor
    · simp [getQuote, hfind, getQuoteFetch, htry]
    · intro _; simp [getQuote, hfind, getQuoteFetch, htry]
  | some c =>
    by_cases hage : now - c.updatedAt < 30000
    · constructor
      · simp [getQuote, hfind, hage]
      · intro hstale
        exact absurd (hstale c rfl) (not_le.mpr hage)
    · constructor
      · simp [getQuote, hfind, hage, getQuoteFetch, htry]
      · intro _; simp [getQuote, hfind, hage, getQuoteFetch, htry]

/-- C7 witness: with a 9900-second-old cache row and two failing
adapters, `getQuote` returns the stale row and tried both adapters. -/
theorem getQuote_allFail_spec_witness :
    (getQuote dbAAPL 10000000 [none, some badFetch] false "AAPL").quote =
      findQuote dbAAPL (jsToUpper "AAPL") ∧
    ((∀ c, findQuote dbAAPL (jsToUpper "AAPL") = some c →
        30000 ≤ 10000000 - c.updatedAt) →
      (getQuote dbAAPL 10000000 [none, some badFetch] false "AAPL").adapterCalls =
        [none, some badFetch].length) :=
  getQuote_allFail_spec dbAAPL 10000000 [none, some badFetch] false "AAPL"
    (by decide)

/-- C3 counterexample: with a provider returning a non-empty batch and
the transaction failing, the fetch-and-store path resolves with the
previously persisted rows — it does not reject. -/
theorem fetchAndStore_txFailure_not_error :
    (selectHistoryBatch "AAPL" ⟨some [tdRow1], none, none⟩).1 =
      some [mapTwelveDataRow "AAPL" tdRow1] ∧
    (fetchAndStoreHistoricalData [oldRowAAPL] [] 0 ⟨some [tdRow1], none, none⟩
        true "AAPL").result = .ok [oldRowAAPL] ∧
    ∀ e, (fetchAndStoreHistoricalData [oldRowAAPL] [] 0 ⟨some [tdRow1], none, none⟩
        true "AAPL").result ≠ .error e := by
  have hok : (fetchAndStoreHistoricalData [oldRowAAPL] [] 0
      ⟨some [tdRow1], none, none⟩ true "AAPL").result = .ok [oldRowAAPL] := by rfl
  refine ⟨by decide, hok, fun e h => ?_⟩
  exact Except.noConfusion (hok.symm.trans h)

/-- C3 amended: when a provider returned a non-empty batch and the
transactional replace fails, `fetchAndStoreHistoricalData` catches the
database error and resolves with the currently persisted history (its
default five-year window), leaving both tables untouched — the same
degraded fallback used when every provider fails. -/
theorem fetchAndStore_txFailure_swallowed (hdb : HistoryDB) (mdb : MetaDB)
    (now : ℤ) (p : HistoryProviders) (symbol : String)
    (batch : List HistoryRow) (n : ℕ)
    (hsel : selectHistoryBatch symbol p = (some batch, n)) (hne : batch ≠ []) :
    fetchAndStoreHistoricalData hdb mdb now p true symbol =
      ⟨.ok (getStoredHistoricalData hdb now symbol (365 * 5)), n, hdb, mdb⟩ := by
  have hlen : 0 < batch.length := List.length_pos.mpr hne
  simp [fetchAndStoreHistoricalData, hsel, hlen]

/-- C3 amended witness: the concrete failing transaction of the
counterexample input, through the amended theorem. -/
theorem fetchAndStore_txFailure_swallowed_witness :
    fetchAndStoreHistoricalData [oldRowAAPL] [] 0 ⟨some [tdRow1], none, none⟩
        true "AAPL" =
      ⟨.ok (getStoredHistoricalData [oldRowAAPL] 0 "AAPL" (365 * 5)), 1,
        [oldRowAAPL], []⟩ :=
  fetchAndStore_txFailure_swallowed [oldRowAAPL] [] 0
    ⟨some [tdRow1], none, none⟩ "AAPL" [mapTwelveDataRow "AAPL" tdRow1] 1
    (by decide) (by decide)

/-- C9: with `forceRefresh = false` and metadata fetched less than 24
hours ago, `getHistoricalData` makes zero provider calls, changes
nothing, and returns exactly the persisted rows of the uppercased symbol
with `date ≥ now - days`, ascending by date. -/
theorem getHistoricalData_freshMetadata_spec (hdb : HistoryDB) (mdb : MetaDB)
    (now : ℤ) (p : HistoryProviders) (txFails : Bool) (symbol : String)
    (days : ℤ) (m : StockMetadataRow) (t : ℤ)
    (hm : findMeta mdb (jsToUpper symbol) = some m)
    (ht : m.lastFetchedAt = some t) (hfresh : now - t < ONE_DAY_MS) :
    getHistoricalData hdb mdb now p txFails symbol days false =
      ⟨.ok (getStoredHistoricalData hdb now (jsToUpper symbol) days), 0, hdb, mdb⟩ ∧
    (getStoredHistoricalData hdb now (jsToUpper symbol) days).Sorted dateLe ∧
    (getStoredHistoricalData hdb now (jsToUpper symbol) days).Perm
      (hdb.filter fun r =>
        r.symbol == jsToUpper symbol && now - days * ONE_DAY_MS ≤ r.date) := by
  refine ⟨?_, ?_, ?_⟩
  · simp [getHistoricalData, historyFresh, hm, ht, hfresh]
  · simp only [getStoredHistoricalData, sortByDate]
    exact List.sorted_insertionSort dateLe _
  · simp only [getStoredHistoricalData, sortByDate]
    exact List.perm_insertionSort dateLe _

/-- C9 witness: metadata fetched at t = 0, queried at t = 1000 with a
ten-day window, serves one stored row from the store with zero provider
calls. -/
theorem getHistoricalData_freshMetadata_spec_witness :
    getHistoricalData [histRowAAPL] [metaAAPL] 1000 ⟨none, none, none⟩ false
        "aapl" 10 false =
      ⟨.ok (getStoredHistoricalData [histRowAAPL] 1000 (jsToUpper "aapl") 10), 0,
        [histRowAAPL], [metaAAPL]⟩ ∧
    (getStoredHistoricalData [histRowAAPL] 1000 (jsToUpper "aapl") 10).Sorted dateLe ∧
    (getStoredHistoricalData [histRowAAPL] 1000 (jsToUpper "aapl") 10).Perm
      ([histRowAAPL].filter fun r =>
        r.symbol == jsToUpper "aapl" && 1000 - 10 * ONE_DAY_MS ≤ r.date) :=
  getHistoricalData_freshMetadata_spec [histRowAAPL] [metaAAPL] 1000
    ⟨none, none, none⟩ false "aapl" 10 metaAAPL 0 (by decide) (by decide)
    (by decide)

/-- After the metadata upsert of the history transaction, the row for the
symbol carries exactly the bounds and timestamp it was given. -/
theorem findMeta_upsertMetaHistory (mdb : MetaDB) (symbol : String)
    (s e : Option ℤ) (now : ℤ) :
    ∃ m, findMeta (upsertMetaHistory mdb symbol s e now) symbol = some m ∧
      m.historyStartDate = s ∧ m.historyEndDate = e ∧
      m.lastFetchedAt = some now := by
  induction mdb with
  | nil =>
    exact ⟨⟨symbol, none, s, e, some now⟩, by simp [upsertMetaHistory, findMeta],
      rfl, rfl, rfl⟩
  | cons m0 rest ih =>
    by_cases h : m0.symbol = symbol
    · refine ⟨{ m0 with
                historyStartDate := s
                historyEndDate := e
                lastFetchedAt := some now }, ?_, rfl, rfl, rfl⟩
      simp [upsertMetaHistory, findMeta, h]
    · obtain ⟨m, hm, h1, h2, h3⟩ := ih
      refine ⟨m, ?_, h1, h2, h3⟩
      simp only [findMeta] at hm
      simp [upsertMetaHistory, findMeta, h, hm]

/-- C6 counterexample: a newest-first Twelve Data payload (days 5 then 3)
is reversed before storing, and the metadata upsert then records
`historyStartDate = 5 days` (the maximum) and `historyEndDate = 3 days`
(the minimum) — not the min/max the claim states, as the stored batch
itself shows. -/
theorem historyMetadata_bounds_cex :
    (fetchAndStoreHistoricalData [] [] (6 * ONE_DAY_MS)
        ⟨some tdNewestFirst, none, none⟩ false "AAPL").metaDb =
      [⟨"AAPL", none, some (5 * ONE_DAY_MS), some (3 * ONE_DAY_MS),
        some (6 * ONE_DAY_MS)⟩] ∧
    (∃ r ∈ (fetchAndStoreHistoricalData [] [] (6 * ONE_DAY_MS)
        ⟨some tdNewestFirst, none, none⟩ false "AAPL").historyDb,
      r.date < 5 * ONE_DAY_MS) ∧
    (∃ r ∈ (fetchAndStoreHistoricalData [] [] (6 * ONE_DAY_MS)
        ⟨some tdNewestFirst, none, none⟩ false "AAPL").historyDb,
      3 * ONE_DAY_MS < r.date) := by
  decide

/-- C6 amended: after a committed refetch with a non-empty batch, the
metadata row carries `historyStartDate` = the *last* stored-batch row's
date and `historyEndDate` = the *first* row's date (these are the
min/max only when the batch is newest-first, e.g. the FMP branch), and
`lastFetchedAt = now`. -/
theorem historyMetadata_bounds_spec (hdb : HistoryDB) (mdb : MetaDB) (now : ℤ)
    (p : HistoryProviders) (symbol : String) (batch : List HistoryRow) (n : ℕ)
    (hsel : selectHistoryBatch symbol p = (some batch, n)) (hne : batch ≠ []) :
    ∃ m, findMeta (fetchAndStoreHistoricalData hdb mdb now p false
        symbol).metaDb symbol = some m ∧
      m.historyStartDate = (batch.getLast?).map (fun r => r.date) ∧
      m.historyEndDate = (batch.head?).map (fun r => r.date) ∧
      m.lastFetchedAt = some now := by
  have hlen : 0 < batch.length := List.length_pos.mpr hne
  have hdbEq : (fetchAndStoreHistoricalData hdb mdb now p false symbol).metaDb =
      upsertMetaHistory mdb symbol ((batch.getLast?).map (fun r => r.date))
        ((batch.head?).map (fun r => r.date)) now := by
    simp [fetchAndStoreHistoricalData, hsel, hlen, applyHistoryTx]
  rw [hdbEq]
  exact findMeta_upsertMetaHistory mdb symbol _ _ now

/-- C6 amended witness: the newest-first Twelve Data scenario, through
the amended theorem. -/
theorem historyMetadata_bounds_spec_witness :
    ∃ m, findMeta (fetchAndStoreHistoricalData [] [] (6 * ONE_DAY_MS)
        ⟨some tdNewestFirst, none, none⟩ false "AAPL").metaDb "AAPL" = some m ∧
      m.historyStartDate =
        (((tdNewestFirst.map (mapTwelveDataRow "AAPL")).reverse.getLast?).map
          (fun r => r.date)) ∧
      m.historyEndDate =
        (((tdNewestFirst.map (mapTwelveDataRow "AAPL")).reverse.head?).map
          (fun r => r.date)) ∧
      m.lastFetchedAt = some (6 * ONE_DAY_MS) :=
  historyMetadata_bounds_spec [] [] (6 * ONE_DAY_MS)
    ⟨some tdNewestFirst, none, none⟩ "AAPL"
    ((tdNewestFirst.map (mapTwelveDataRow "AAPL")).reverse) 1 (by decide)
    (by decide)

/-- C5 counterexample: when FMP supplies the history with its
newest-first payload, `getHistoricalData` returns the rows in the
provider's order — descending, not ascending, because the FMP branch
never reverses its batch. -/
theorem getHistoricalData_fmp_descending_cex :
    (getHistoricalData [] [] (3 * ONE_DAY_MS) ⟨none, none, some fmpNewestFirst⟩
        false "AAPL" (365 * 5) false).result = .ok fmpDescBatch ∧
    ¬ fmpDescBatch.Sorted dateLe := by
  constructor
  · rfl
  · decide

/-- C5 amended: the returned sequence is ascending whenever the Twelve
Data branch (which reverses its newest-first payload) supplied the data,
and whenever the rows are served from the persisted store (fresh-metadata
path or fallback); the Yahoo and FMP branches instead return their
payloads in provider order. -/
theorem getHistoricalData_twelveData_ascending (hdb : HistoryDB) (mdb : MetaDB)
    (now : ℤ) (rows : List TwelveDataRow) (y : Option (List YahooRow))
    (f : Option (List FMPRow)) (symbol : String) (days : ℤ)
    (forceRefresh : Bool)
    (hrows : rows.Pairwise (fun a b => b.datetime ≤ a.datetime)) :
    ∃ l, (getHistoricalData hdb mdb now ⟨some rows, y, f⟩ false symbol days
        forceRefresh).result = .ok l ∧ l.Sorted dateLe := by
  have hsorted : ∀ s d, (getStoredHistoricalData hdb now s d).Sorted dateLe := by
    intro s d
    simp only [getStoredHistoricalData, sortByDate]
    exact List.sorted_insertionSort dateLe _
  have hbatch : ((rows.map (mapTwelveDataRow (jsToUpper symbol))).reverse).Sorted
      dateLe := by
    rw [List.Sorted, List.pairwise_reverse, List.pairwise_map]
    exact hrows
  cases hfr : historyFresh mdb (jsToUpper symbol) now forceRefresh
  · by_cases hl : 0 < rows.length
    · refine ⟨(rows.map (mapTwelveDataRow (jsToUpper symbol))).reverse, ?_, hbatch⟩
      simp [getHistoricalData, hfr, fetchAndStoreHistoricalData,
        selectHistoryBatch, hl]
    · refine ⟨getStoredHistoricalData hdb now (jsToUpper symbol) (365 * 5), ?_,
        hsorted _ _⟩
      simp [getHistoricalData, hfr, fetchAndStoreHistoricalData,
        selectHistoryBatch, hl]
  · refine ⟨getStoredHistoricalData hdb now (jsToUpper symbol) days, ?_,
      hsorted _ _⟩
    simp [getHistoricalData, hfr]

/-- C5 amended witness: a newest-first Twelve Data payload yields an
ascending result, through the amended theorem. -/
theorem getHistoricalData_twelveData_ascending_witness :
    ∃ l, (getHistoricalData [] [] (6 * ONE_DAY_MS)
        ⟨some tdNewestFirst, none, none⟩ false "AAPL" (365 * 5)
        false).result = .ok l ∧ l.Sorted dateLe :=
  getHistoricalData_twelveData_ascending [] [] (6 * ONE_DAY_MS) tdNewestFirst
    none none "AAPL" (365 * 5) false (by decide)

/-- Every row of a batch produced by the provider strategy chain carries
the symbol it was fetched for (the mapping functions set it). -/
theorem selectHistoryBatch_symbols (symbol : String) (p : HistoryProviders)
    (batch : List HistoryRow) (n : ℕ)
    (hsel : selectHistoryBatch symbol p = (some batch, n)) :
    ∀ r ∈ batch, r.symbol = symbol := by
  have htd : ∀ rows : List TwelveDataRow,
      ∀ r ∈ (rows.map (mapTwelveDataRow symbol)).reverse, r.symbol = symbol := by
    intro rows r hr
    rw [List.mem_reverse] at hr
    obtain ⟨x, -, rfl⟩ := List.mem_map.mp hr
    rfl
  have hyh : ∀ rows : List YahooRow,
      ∀ r ∈ rows.map (mapYahooRow symbol), r.symbol = symbol := by
    intro rows r hr
    obtain ⟨x, -, rfl⟩ := List.mem_map.mp hr
    rfl
  have hfm : ∀ rows : List FMPRow,
      ∀ r ∈ rows.map (mapFMPRow symbol), r.symbol = symbol := by
    intro rows r hr
    obtain ⟨x, -, rfl⟩ := List.mem_map.mp hr
    rfl
  rcases p with ⟨td, yh, fm⟩
  cases td with
  | some rows =>
    simp only [selectHistoryBatch, Prod.mk.injEq, Option.some.injEq] at hsel
    exact hsel.1 ▸ htd rows
  | none =>
    cases yh with
    | some yrows =>
      by_cases hlen : yrows.length > 0
      · simp only [selectHistoryBatch, hlen, if_true, Prod.mk.injEq,
          Option.some.injEq] at hsel
        exact hsel.1 ▸ hyh yrows
      · cases fm with
        | some frows =>
          simp only [selectHistoryBatch, hlen, if_false, Prod.mk.injEq,
            Option.some.injEq] at hsel
          exact hsel.1 ▸ hfm frows
        | none => simp [selectHistoryBatch, hlen] at hsel
    | none =>
      cases fm with
      | some frows =>
        simp only [selectHistoryBatch, Prod.mk.injEq, Option.some.injEq] at hsel
        exact hsel.1 ▸ hfm frows
      | none => simp [selectHistoryBatch] at hsel

/-- Rows of the symbol surviving a duplicate-skipping bulk insert of a
single-symbol batch: the duplicate check only ever sees the
symbol-filtered part of the table. -/
theorem filter_insertSkipDup (symbol : String) :
    ∀ (batch : List HistoryRow) (acc : HistoryDB),
      (∀ r ∈ batch, r.symbol = symbol) →
      (insertSkipDup acc batch).filter (fun r => r.symbol == symbol) =
        batch.foldl
          (fun a r => if a.any (fun x => x.date == r.date) then a else a ++ [r])
          (acc.filter (fun r => r.symbol == symbol)) := by
  intro batch
  induction batch with
  | nil => intro acc _; rfl
  | cons r rest ih =>
    intro acc hsym
    have hr : r.symbol = symbol := hsym r (List.mem_cons_self _ _)
    have hrest : ∀ x ∈ rest, x.symbol = symbol :=
      fun x hx => hsym x (List.mem_cons_of_mem _ hx)
    have hany : (acc.any fun x => x.symbol == r.symbol && x.date == r.date) =
        ((acc.filter fun x => x.symbol == symbol).any fun x =>
          x.date == r.date) := by
      rw [List.any_filter]
      simp only [hr]
    have h0 : insertSkipDup acc (r :: rest) =
        insertSkipDup
          (if acc.any (fun x => x.symbol == r.symbol && x.date == r.date) then acc
           else acc ++ [r]) rest := rfl
    have hstep :
        ((if acc.any (fun x => x.symbol == r.symbol && x.date == r.date) then acc
          else acc ++ [r]).filter fun x => x.symbol == symbol) =
        (if (acc.filter fun x => x.symbol == symbol).any
            (fun x => x.date == r.date) then
          acc.filter fun x => x.symbol == symbol
        else (acc.filter fun x => x.symbol == symbol) ++ [r]) := by
      by_cases hc :
          (acc.any fun x => x.symbol == r.symbol && x.date == r.date) = true
      · rw [if_pos hc, if_pos (hany ▸ hc)]
      · have hc' : ¬ ((acc.filter fun x => x.symbol == symbol).any
            fun x => x.date == r.date) = true :=
          fun h => hc (hany.symm ▸ h)
        rw [if_neg hc, if_neg hc', List.filter_append]
        simp [hr]
    rw [h0, ih _ hrest, hstep]
    rfl

/-- A duplicate-skipping bulk insert of a single-symbol batch leaves the
rows of every other symbol untouched. -/
theorem filter_neg_insertSkipDup (symbol : String) :
    ∀ (batch : List HistoryRow) (acc : HistoryDB),
      (∀ r ∈ batch, r.symbol = symbol) →
      (insertSkipDup acc batch).filter (fun r => !(r.symbol == symbol)) =
        acc.filter (fun r => !(r.symbol == symbol)) := by
  intro batch
  induction batch with
  | nil => intro acc _; rfl
  | cons r rest ih =>
    intro acc hsym
    have hr : r.symbol = symbol := hsym r (List.mem_cons_self _ _)
    have hrest : ∀ x ∈ rest, x.symbol = symbol :=
      fun x hx => hsym x (List.mem_cons_of_mem _ hx)
    have h0 : insertSkipDup acc (r :: rest) =
        insertSkipDup
          (if acc.any (fun x => x.symbol == r.symbol && x.date == r.date) then acc
           else acc ++ [r]) rest := rfl
    rw [h0, ih _ hrest]
    by_cases hc :
        (acc.any fun x => x.symbol == r.symbol && x.date == r.date) = true
    · rw [if_pos hc]
    · rw [if_neg hc, List.filter_append]
      simp [hr]

/-- Filtering the deleted table back for the deleted symbol gives
nothing. -/
theorem filter_sym_of_filter_neg (hdb : HistoryDB) (symbol : String) :
    ((hdb.filter fun r => !(r.symbol == symbol)).filter
      fun r => r.symbol == symbol) = [] := by
  induction hdb with
  | nil => rfl
  | cons r rest ih => by_cases h : r.symbol = symbol <;> simp [h, ih]

/-- Filtering away a symbol is idempotent. -/
theorem filter_neg_idem (hdb : HistoryDB) (symbol : String) :
    ((hdb.filter fun r => !(r.symbol == symbol)).filter
      fun r => !(r.symbol == symbol)) =
      hdb.filter fun r => !(r.symbol == symbol) := by
  induction hdb with
  | nil => rfl
  | cons r rest ih => by_cases h : r.symbol = symbol <;> simp [h, ih]

/-- C4 counterexample: a provider batch containing two rows with the same
`(symbol, date)` key is not persisted "exactly": `skipDuplicates` drops
the second row, so the stored set is a strict subset of the batch. -/
theorem historyReplace_duplicate_batch_cex :
    (selectHistoryBatch "AAPL" ⟨some tdDupRows, none, none⟩).1 = some batchDup ∧
    batchDup.length = 2 ∧
    (fetchAndStoreHistoricalData [] [] 0 ⟨some tdDupRows, none, none⟩ false
        "AAPL").historyDb.filter (fun r => r.symbol == "AAPL") ≠ batchDup := by
  refine ⟨by decide, by decide, ?_⟩
  decide

/-- C4 amended: after a committed refetch with a non-empty single-symbol
batch, the persisted rows of that symbol are exactly the batch with
later duplicate-date rows dropped (first occurrence kept) — in
particular no row from any earlier fetch remains — and rows of every
other symbol are unchanged; the whole replacement is a single atomic
state transition (`applyHistoryTx`), so no intermediate table is ever
observable. -/
theorem historyReplace_dedup_spec (hdb : HistoryDB) (mdb : MetaDB) (now : ℤ)
    (p : HistoryProviders) (symbol : String) (batch : List HistoryRow) (n : ℕ)
    (hsel : selectHistoryBatch symbol p = (some batch, n)) (hne : batch ≠ []) :
    (fetchAndStoreHistoricalData hdb mdb now p false symbol).result =
      .ok batch ∧
    (fetchAndStoreHistoricalData hdb mdb now p false symbol).historyDb.filter
      (fun r => r.symbol == symbol) = dedupByDate batch ∧
    (fetchAndStoreHistoricalData hdb mdb now p false symbol).historyDb.filter
      (fun r => !(r.symbol == symbol)) =
      hdb.filter (fun r => !(r.symbol == symbol)) := by
  have hsym := selectHistoryBatch_symbols symbol p batch n hsel
  have hlen : 0 < batch.length := List.length_pos.mpr hne
  have hdbEq : (fetchAndStoreHistoricalData hdb mdb now p false
      symbol).historyDb =
      insertSkipDup (hdb.filter fun r => !(r.symbol == symbol)) batch := by
    simp [fetchAndStoreHistoricalData, hsel, hlen, applyHistoryTx]
  refine ⟨by simp [fetchAndStoreHistoricalData, hsel, hlen], ?_, ?_⟩
  · rw [hdbEq, filter_insertSkipDup symbol batch _ hsym,
      filter_sym_of_filter_neg]
    rfl
  · rw [hdbEq, filter_neg_insertSkipDup symbol batch _ hsym, filter_neg_idem]

/-- C4 amended witness: the duplicate-key batch of the counterexample,
through the amended theorem. -/
theorem historyReplace_dedup_spec_witness :
    (fetchAndStoreHistoricalData [] [] 0 ⟨some tdDupRows, none, none⟩ false
        "AAPL").result = .ok batchDup ∧
    (fetchAndStoreHistoricalData [] [] 0 ⟨some tdDupRows, none, none⟩ false
        "AAPL").historyDb.filter (fun r => r.symbol == "AAPL") =
      dedupByDate batchDup ∧
    (fetchAndStoreHistoricalData [] [] 0 ⟨some tdDupRows, none, none⟩ false
        "AAPL").historyDb.filter (fun r => !(r.symbol == "AAPL")) =
      List.filter (fun r => !(r.symbol == "AAPL")) [] :=
  historyReplace_dedup_spec [] [] 0 ⟨some tdDupRows, none, none⟩ "AAPL"
    batchDup 1 (by decide) (by decide)

/-- One accumulation step, written with the spec-facing per-holding
contributions. -/
theorem recordStep_spec (quotes : List (String × QuoteLite)) (t : ℚ × ℚ × ℚ)
    (h : Holding) :
    recordStep quotes t h =
      (t.1 + h.shares * claimPrice quotes h,
       t.2.1 + h.shares * h.avgCostBasis,
       t.2.2 + h.shares * claimChange quotes h) := by
  unfold recordStep claimPrice claimChange
  cases hq : lookupQuote quotes h.symbol with
  | some q =>
    simp only [hq, Option.getD_some, jsOr]
    by_cases hz : q.changeAmount = 0 <;> simp [hz]
  | none => simp [hq, jsOr]

/-- The accumulation over any prefix state, as three sums. -/
theorem foldl_recordStep (quotes : List (String × QuoteLite)) :
    ∀ (holdings : List Holding) (t : ℚ × ℚ × ℚ),
      holdings.foldl (recordStep quotes) t =
        (t.1 + (holdings.map fun h => h.shares * claimPrice quotes h).sum,
         t.2.1 + (holdings.map fun h => h.shares * h.avgCostBasis).sum,
         t.2.2 + (holdings.map fun h => h.shares * claimChange quotes h).sum) := by
  intro holdings
  induction holdings with
  | nil => intro t; simp
  | cons h rest ih =>
    intro t
    rw [List.foldl_cons, ih, recordStep_spec]
    simp [add_assoc]

/-- `recordTotals` as three per-holding sums. -/
theorem recordTotals_spec (quotes : List (String × QuoteLite))
    (holdings : List Holding) :
    recordTotals quotes holdings =
      ((holdings.map fun h => h.shares * claimPrice quotes h).sum,
       (holdings.map fun h => h.shares * h.avgCostBasis).sum,
       (holdings.map fun h => h.shares * claimChange quotes h).sum) := by
  rw [recordTotals, foldl_recordStep]
  simp

/-- Upserting by `(userId, date)` leaves exactly one row with that key
when at most one was there, and never adds a second one. -/
theorem countSnapKey_upsert (sdb : SnapDB) (u : String) (d : ℤ)
    (tv tc dg : ℚ) :
    countSnapKey (upsertSnapshot sdb u d tv tc dg) u d =
      if countSnapKey sdb u d = 0 then 1 else countSnapKey sdb u d := by
  induction sdb with
  | nil => simp [upsertSnapshot, countSnapKey]
  | cons s rest ih =>
    by_cases hk : (s.userId == u && s.date == d) = true
    · simp [upsertSnapshot, countSnapKey, hk]
    · have h1 : countSnapKey (upsertSnapshot (s :: rest) u d tv tc dg) u d =
          countSnapKey (upsertSnapshot rest u d tv tc dg) u d := by
        simp [upsertSnapshot, countSnapKey, hk]
      have h2 : countSnapKey (s :: rest) u d = countSnapKey rest u d := by
        simp [countSnapKey, hk]
      rw [h1, h2, ih]

/-- `recordDailySnapshot` on a user with holdings: the resolved snapshot
and the upsert, in closed form. -/
theorem recordDailySnapshot_eq (sdb : SnapDB)
    (portfolios : List (List Holding)) (fetch : String → Option QuoteLite)
    (userId : String) (now : ℤ) (hp : portfolios.length ≠ 0)
    (hh : portfolios.flatten.length ≠ 0) :
    recordDailySnapshot sdb portfolios fetch userId now =
      (some ⟨userId, truncDay now,
        (portfolios.flatten.map fun h =>
          h.shares * claimPrice (quotesFor fetch portfolios.flatten) h).sum,
        (portfolios.flatten.map fun h => h.shares * h.avgCostBasis).sum,
        (portfolios.flatten.map fun h =>
          h.shares * claimChange (quotesFor fetch portfolios.flatten) h).sum⟩,
       upsertSnapshot sdb userId (truncDay now)
        ((portfolios.flatten.map fun h =>
          h.shares * claimPrice (quotesFor fetch portfolios.flatten) h).sum)
        ((portfolios.flatten.map fun h => h.shares * h.avgCostBasis).sum)
        ((portfolios.flatten.map fun h =>
          h.shares * claimChange (quotesFor fetch portfolios.flatten) h).sum)) := by
  have hh' : ¬(List.map List.length portfolios).sum = 0 := by simpa using hh
  simp [recordDailySnapshot, hp, hh', recordTotals_spec, quotesFor]

/-- C2: for a user whose holdings all have uppercase symbols,
`recordDailySnapshot` upserts the `(userId, today-midnight)` snapshot
with `totalValue = Σ shares·price`, `totalCost = Σ shares·avgCostBasis`,
`dayGain = Σ shares·changeAmount` (missing quotes contributing
`price = avgCostBasis`, `changeAmount = 0`), leaving exactly one row
with that key; a second call the same day overwrites that row instead of
adding another. -/
theorem recordDailySnapshot_spec (sdb : SnapDB)
    (portfolios : List (List Holding)) (fetch : String → Option QuoteLite)
    (userId : String) (now : ℤ) (hp : portfolios.length ≠ 0)
    (hh : portfolios.flatten.length ≠ 0)
    (hupper : ∀ h ∈ portfolios.flatten, jsToUpper h.symbol = h.symbol)
    (hkey : countSnapKey sdb userId (truncDay now) ≤ 1) :
    recordDailySnapshot sdb portfolios fetch userId now =
      (some ⟨userId, truncDay now,
        (portfolios.flatten.map fun h =>
          h.shares * claimPrice (quotesFor fetch portfolios.flatten) h).sum,
        (portfolios.flatten.map fun h => h.shares * h.avgCostBasis).sum,
        (portfolios.flatten.map fun h =>
          h.shares * claimChange (quotesFor fetch portfolios.flatten) h).sum⟩,
       upsertSnapshot sdb userId (truncDay now)
        ((portfolios.flatten.map fun h =>
          h.shares * claimPrice (quotesFor fetch portfolios.flatten) h).sum)
        ((portfolios.flatten.map fun h => h.shares * h.avgCostBasis).sum)
        ((portfolios.flatten.map fun h =>
          h.shares * claimChange (quotesFor fetch portfolios.flatten) h).sum)) ∧
    countSnapKey (recordDailySnapshot sdb portfolios fetch userId now).2
      userId (truncDay now) = 1 ∧
    (∀ (fetch2 : String → Option QuoteLite) (now2 : ℤ),
      truncDay now2 = truncDay now →
      countSnapKey
        (recordDailySnapshot
          (recordDailySnapshot sdb portfolios fetch userId now).2 portfolios
          fetch2 userId now2).2 userId (truncDay now) = 1) := by
  have h1 := recordDailySnapshot_eq sdb portfolios fetch userId now hp hh
  have hcount1 : countSnapKey (recordDailySnapshot sdb portfolios fetch userId
      now).2 userId (truncDay now) = 1 := by
    rw [h1]
    rw [countSnapKey_upsert]
    by_cases h0 : countSnapKey sdb userId (truncDay now) = 0
    · simp [h0]
    · have hone : countSnapKey sdb userId (truncDay now) = 1 := by omega
      simp [h0, hone]
  refine ⟨h1, hcount1, ?_⟩
  intro fetch2 now2 hnow2
  have h2 := recordDailySnapshot_eq
    (recordDailySnapshot sdb portfolios fetch userId now).2 portfolios fetch2
    userId now2 hp hh
  rw [h2]
  simp only []
  rw [hnow2, countSnapKey_upsert, hcount1]
  simp

/-- C2 witness: the spec's worked example — 10 AAPL shares at cost 150
with live quote `{price: 160, changeAmount: 5}` — through the theorem,
with a repeated same-day call. -/
theorem recordDailySnapshot_spec_witness :
    recordDailySnapshot [] [[holdingAAPL]] fetchAAPL "u" 100 =
      (some ⟨"u", truncDay 100,
        ([[holdingAAPL]].flatten.map fun h =>
          h.shares * claimPrice (quotesFor fetchAAPL [[holdingAAPL]].flatten) h).sum,
        ([[holdingAAPL]].flatten.map fun h => h.shares * h.avgCostBasis).sum,
        ([[holdingAAPL]].flatten.map fun h =>
          h.shares * claimChange (quotesFor fetchAAPL [[holdingAAPL]].flatten) h).sum⟩,
       upsertSnapshot [] "u" (truncDay 100)
        (([[holdingAAPL]].flatten.map fun h =>
          h.shares * claimPrice (quotesFor fetchAAPL [[holdingAAPL]].flatten) h).sum)
        (([[holdingAAPL]].flatten.map fun h => h.shares * h.avgCostBasis).sum)
        (([[holdingAAPL]].flatten.map fun h =>
          h.shares * claimChange (quotesFor fetchAAPL [[holdingAAPL]].flatten) h).sum)) ∧
    countSnapKey (recordDailySnapshot [] [[holdingAAPL]] fetchAAPL "u" 100).2
      "u" (truncDay 100) = 1 ∧
    (∀ (fetch2 : String → Option QuoteLite) (now2 : ℤ),
      truncDay now2 = truncDay 100 →
      countSnapKey
        (recordDailySnapshot
          (recordDailySnapshot [] [[holdingAAPL]] fetchAAPL "u" 100).2
          [[holdingAAPL]] fetch2 "u" now2).2 "u" (truncDay 100) = 1) :=
  recordDailySnapshot_spec [] [[holdingAAPL]] fetchAAPL "u" 100 (by decide)
    (by decide) (by decide) (by decide)

/-- The inner per-day loop over any accumulator, as three sums and an
"any holding had a point" flag. -/
theorem foldl_holdingDayStep (histOf : String → List HistoryRow) (date : ℤ) :
    ∀ (holdings : List Holding) (t : DayTotals),
      holdings.foldl (holdingDayStep histOf date) t =
        ⟨t.totalValue + (holdings.map (valueContrib histOf date)).sum,
         t.totalCost + (holdings.map fun h => h.shares * h.avgCostBasis).sum,
         t.prevDayValue + (holdings.map (baselineContrib histOf date)).sum,
         t.hasData || holdings.any fun h =>
           (findDay (histOf h.symbol) date).isSome⟩ := by
  intro holdings
  induction holdings with
  | nil => intro t; cases t; simp
  | cons h rest ih =>
    intro t
    rw [List.foldl_cons, ih]
    cases hfd : findDay (histOf h.symbol) date with
    | some d =>
      cases hp : findDay (histOf h.symbol) (date - ONE_DAY_MS) with
      | some p =>
        simp [holdingDayStep, hfd, hp, valueContrib, baselineContrib, add_assoc]
      | none =>
        simp [holdingDayStep, hfd, hp, valueContrib, baselineContrib, add_assoc]
    | none =>
      simp [holdingDayStep, hfd, valueContrib, baselineContrib, add_assoc]

/-- `dayTotals` in closed form. -/
theorem dayTotals_spec (histOf : String → List HistoryRow)
    (holdings : List Holding) (date : ℤ) :
    dayTotals histOf holdings date =
      ⟨(holdings.map (valueContrib histOf date)).sum,
       (holdings.map fun h => h.shares * h.avgCostBasis).sum,
       (holdings.map (baselineContrib histOf date)).sum,
       holdings.any fun h => (findDay (histOf h.symbol) date).isSome⟩ := by
  rw [dayTotals, foldl_holdingDayStep]
  simp

/-- One loop iteration appends exactly the emitted snapshot (if any) to
the accumulated list. -/
theorem genStep_fst (histOf : String → List HistoryRow)
    (holdings : List Holding) (userId : String) (today : ℤ)
    (upsertOk : ℤ → Bool) (acc : List PortfolioSnapshot × SnapDB) (i : ℕ) :
    (genStep histOf holdings userId today upsertOk acc i).1 =
      acc.1 ++ (genEmit histOf holdings userId today upsertOk i).toList := by
  unfold genStep genEmit
  by_cases h1 : (dayTotals histOf holdings
      (today - (i : ℤ) * ONE_DAY_MS)).hasData = true ∨ i = 0
  · by_cases h2 : upsertOk (today - (i : ℤ) * ONE_DAY_MS) = true
    · simp [h1, h2]
    · simp [h1, h2]
  · simp [h1]

/-- The loop over any index list, as a `filterMap`. -/
theorem foldl_genStep_fst (histOf : String → List HistoryRow)
    (holdings : List Holding) (userId : String) (today : ℤ)
    (upsertOk : ℤ → Bool) :
    ∀ (L : List ℕ) (acc : List PortfolioSnapshot × SnapDB),
      (L.foldl (genStep histOf holdings userId today upsertOk) acc).1 =
        acc.1 ++ L.filterMap (genEmit histOf holdings userId today upsertOk) := by
  intro L
  induction L with
  | nil => intro acc; simp
  | cons i L ih =>
    intro acc
    rw [List.foldl_cons, ih, genStep_fst]
    cases hem : genEmit histOf holdings userId today upsertOk i <;>
      simp [List.filterMap_cons, hem]

/-- The snapshots produced by `generateHistoricalSnapshots` (holdings
present, all upserts succeeding), as a `filterMap` over the iterated day
indices. -/
theorem generateHistoricalSnapshots_fst (sdb : SnapDB) (hdb : HistoryDB)
    (portfolios : List (List Holding)) (userId : String) (now : ℤ)
    (days : ℕ) (hne : portfolios.flatten.length ≠ 0) :
    (generateHistoricalSnapshots sdb hdb portfolios userId now days).1 =
      ((List.range (days + 1)).reverse).filterMap
        (genEmit (fun sym => histTake hdb sym days) portfolios.flatten userId
          (truncDay now) (fun _ => true)) := by
  simp only [generateHistoricalSnapshots, genSnapshotsLoop]
  rw [if_neg hne, foldl_genStep_fst]
  simp

/-- The day-has-data flag, as existence of a loaded history point at the
day. -/
theorem hasData_iff (hdb : HistoryDB) (days : ℕ) (holdings : List Holding)
    (date : ℤ) :
    ((dayTotals (fun sym => histTake hdb sym days) holdings date).hasData =
      true) ↔
      ∃ h ∈ holdings, ∃ r ∈ histTake hdb h.symbol days,
        truncDay r.date = date := by
  rw [dayTotals_spec]
  simp [List.any_eq_true, findDay, List.find?_isSome]

/-- With every upsert succeeding, iteration `i` emits exactly when the
day had data or it is the final day, and it emits the day's totals. -/
theorem genEmit_eq (histOf : String → List HistoryRow)
    (holdings : List Holding) (userId : String) (today : ℤ) (i : ℕ) :
    genEmit histOf holdings userId today (fun _ => true) i =
      (if (dayTotals histOf holdings
            (today - (i : ℤ) * ONE_DAY_MS)).hasData = true ∨ i = 0 then
        some ⟨userId, today - (i : ℤ) * ONE_DAY_MS,
          (holdings.map (valueContrib histOf
            (today - (i : ℤ) * ONE_DAY_MS))).sum,
          (holdings.map fun h => h.shares * h.avgCostBasis).sum,
          (holdings.map (valueContrib histOf
            (today - (i : ℤ) * ONE_DAY_MS))).sum -
          (holdings.map (baselineContrib histOf
            (today - (i : ℤ) * ONE_DAY_MS))).sum⟩
      else none) := by
  unfold genEmit
  by_cases h1 : (dayTotals histOf holdings
      (today - (i : ℤ) * ONE_DAY_MS)).hasData = true ∨ i = 0
  · simp only [h1, if_true, if_pos]
    rw [dayTotals_spec]
  · simp [h1]

/-- C1 amended: with holdings present, day `today - i` of the backfill
gets a snapshot iff it is the final day (`i = 0`) or some holding has a
point at that day among the **first `days` stored HistoryPoints of its
symbol in ascending date order** (the query is
`orderBy date asc, take: days`, not the full stored set); and any
snapshot for that day carries the per-holding totals, a holding without
a loaded point contributing the flat `shares * avgCostBasis` to both the
value and the previous-day baseline. -/
theorem generateHistoricalSnapshots_day_spec (sdb : SnapDB) (hdb : HistoryDB)
    (portfolios : List (List Holding)) (userId : String) (now : ℤ)
    (days i : ℕ) (hi : i ≤ days) (hne : portfolios.flatten.length ≠ 0) :
    ((∃ s ∈ (generateHistoricalSnapshots sdb hdb portfolios userId now days).1,
        s.date = truncDay now - (i : ℤ) * ONE_DAY_MS) ↔
      (i = 0 ∨ ∃ h ∈ portfolios.flatten, ∃ r ∈ histTake hdb h.symbol days,
        truncDay r.date = truncDay now - (i : ℤ) * ONE_DAY_MS)) ∧
    (∀ s ∈ (generateHistoricalSnapshots sdb hdb portfolios userId now days).1,
      s.date = truncDay now - (i : ℤ) * ONE_DAY_MS →
      (s.totalValue, s.totalCost, s.dayGain) =
        ((portfolios.flatten.map (valueContrib
            (fun sym => histTake hdb sym days)
            (truncDay now - (i : ℤ) * ONE_DAY_MS))).sum,
         (portfolios.flatten.map fun h => h.shares * h.avgCostBasis).sum,
         (portfolios.flatten.map (valueContrib
            (fun sym => histTake hdb sym days)
            (truncDay now - (i : ℤ) * ONE_DAY_MS))).sum -
         (portfolios.flatten.map (baselineContrib
            (fun sym => histTake hdb sym days)
            (truncDay now - (i : ℤ) * ONE_DAY_MS))).sum)) := by
  have hfst := generateHistoricalSnapshots_fst sdb hdb portfolios userId now
    days hne
  have hdate_inj : ∀ j : ℕ,
      truncDay now - (j : ℤ) * ONE_DAY_MS =
        truncDay now - (i : ℤ) * ONE_DAY_MS → j = i := by
    intro j hj
    have hday : ONE_DAY_MS = 86400000 := rfl
    rw [hday] at hj
    omega
  have hmem : ∀ s,
      s ∈ (generateHistoricalSnapshots sdb hdb portfolios userId now days).1 ↔
      ∃ j, j ≤ days ∧ genEmit (fun sym => histTake hdb sym days)
        portfolios.flatten userId (truncDay now) (fun _ => true) j = some s := by
    intro s
    rw [hfst, List.mem_filterMap]
    constructor
    · rintro ⟨j, hj, hem⟩
      rw [List.mem_reverse, List.mem_range] at hj
      exact ⟨j, by omega, hem⟩
    · rintro ⟨j, hj, hem⟩
      refine ⟨j, ?_, hem⟩
      rw [List.mem_reverse, List.mem_range]
      omega
  constructor
  · constructor
    · rintro ⟨s, hs, hdate⟩
      obtain ⟨j, hj, hem⟩ := (hmem s).mp hs
      rw [genEmit_eq] at hem
      by_cases hcond : (dayTotals (fun sym => histTake hdb sym days)
          portfolios.flatten
          (truncDay now - (j : ℤ) * ONE_DAY_MS)).hasData = true ∨ j = 0
      · rw [if_pos hcond] at hem
        have hse := Option.some.inj hem
        subst hse
        have hji : j = i := hdate_inj j hdate
        subst hji
        rcases hcond with hd | h0
        · exact Or.inr ((hasData_iff hdb days portfolios.flatten _).mp hd)
        · exact Or.inl h0
      · rw [if_neg hcond] at hem
        simp at hem
    · intro hrhs
      have hcond : (dayTotals (fun sym => histTake hdb sym days)
          portfolios.flatten
          (truncDay now - (i : ℤ) * ONE_DAY_MS)).hasData = true ∨ i = 0 := by
        rcases hrhs with h0 | hex
        · exact Or.inr h0
        · exact Or.inl ((hasData_iff hdb days portfolios.flatten _).mpr hex)
      refine ⟨⟨userId, truncDay now - (i : ℤ) * ONE_DAY_MS,
        (portfolios.flatten.map (valueContrib
          (fun sym => histTake hdb sym days)
          (truncDay now - (i : ℤ) * ONE_DAY_MS))).sum,
        (portfolios.flatten.map fun h => h.shares * h.avgCostBasis).sum,
        (portfolios.flatten.map (valueContrib
          (fun sym => histTake hdb sym days)
          (truncDay now - (i : ℤ) * ONE_DAY_MS))).sum -
        (portfolios.flatten.map (baselineContrib
          (fun sym => histTake hdb sym days)
          (truncDay now - (i : ℤ) * ONE_DAY_MS))).sum⟩, ?_, rfl⟩
      apply (hmem _).mpr
      refine ⟨i, hi, ?_⟩
      rw [genEmit_eq, if_pos hcond]
  · intro s hs hdate
    obtain ⟨j, hj, hem⟩ := (hmem s).mp hs
    rw [genEmit_eq] at hem
    by_cases hcond : (dayTotals (fun sym => histTake hdb sym days)
        portfolios.flatten
        (truncDay now - (j : ℤ) * ONE_DAY_MS)).hasData = true ∨ j = 0
    · rw [if_pos hcond] at hem
      have hse := Option.some.inj hem
      subst hse
      have hji : j = i := hdate_inj j hdate
      subst hji
      rfl
    · rw [if_neg hcond] at hem
      simp at hem

/-- C1 counterexample: with `days = 1` and a symbol whose stored history
has points five days ago and one day ago, the query
`orderBy date asc, take: 1` loads only the five-days-ago point, so day
`today - 1` has a **stored** HistoryPoint yet gets no snapshot — the
claim's "stored HistoryPoint" reading is false. -/
theorem generateHistoricalSnapshots_stored_point_skipped :
    (∃ r ∈ hdbC1, r.symbol = holdingA.symbol ∧
      truncDay r.date = truncDay 0 - (1 : ℤ) * ONE_DAY_MS) ∧
    ¬(∃ s ∈ (generateHistoricalSnapshots [] hdbC1 [[holdingA]] "u" 0 1).1,
      s.date = truncDay 0 - (1 : ℤ) * ONE_DAY_MS) := by
  decide

/-- C1 amended witness: the same scenario at the final day `i = 0`,
through the amended theorem: today gets its terminal snapshot, flat at
cost basis. -/
theorem generateHistoricalSnapshots_day_spec_witness :
    ((∃ s ∈ (generateHistoricalSnapshots [] hdbC1 [[holdingA]] "u" 0 1).1,
        s.date = truncDay 0 - ((0 : ℕ) : ℤ) * ONE_DAY_MS) ↔
      ((0 : ℕ) = 0 ∨ ∃ h ∈ ([[holdingA]] : List (List Holding)).flatten,
        ∃ r ∈ histTake hdbC1 h.symbol 1,
        truncDay r.date = truncDay 0 - ((0 : ℕ) : ℤ) * ONE_DAY_MS)) ∧
    (∀ s ∈ (generateHistoricalSnapshots [] hdbC1 [[holdingA]] "u" 0 1).1,
      s.date = truncDay 0 - ((0 : ℕ) : ℤ) * ONE_DAY_MS →
      (s.totalValue, s.totalCost, s.dayGain) =
        ((([[holdingA]] : List (List Holding)).flatten.map (valueContrib
            (fun sym => histTake hdbC1 sym 1)
            (truncDay 0 - ((0 : ℕ) : ℤ) * ONE_DAY_MS))).sum,
         (([[holdingA]] : List (List Holding)).flatten.map fun h =>
            h.shares * h.avgCostBasis).sum,
         (([[holdingA]] : List (List Holding)).flatten.map (valueContrib
            (fun sym => histTake hdbC1 sym 1)
            (truncDay 0 - ((0 : ℕ) : ℤ) * ONE_DAY_MS))).sum -
         (([[holdingA]] : List (List Holding)).flatten.map (baselineContrib
            (fun sym => histTake hdbC1 sym 1)
            (truncDay 0 - ((0 : ℕ) : ℤ) * ONE_DAY_MS))).sum)) :=
  generateHistoricalSnapshots_day_spec [] hdbC1 [[holdingA]] "u" 0 1 0
    (by decide) (by decide)

/-- C10: any internal failure of `recordDailySnapshot` or
`generateHistoricalSnapshots` is caught: the exported functions resolve
with `null` / the empty list and the untouched table — byte-for-byte the
same values a user with no portfolios gets, so the caller cannot tell an
internal error from an empty-holdings no-op. -/
theorem snapshotService_swallows_errors (sdb : SnapDB) (userId : String)
    (now : ℤ) (days : ℕ) (w : RecordWorld) (g : GenWorld) (e1 e2 : String)
    (hw : recordDailySnapshotBody sdb w userId now = .error e1)
    (hg : generateHistoricalSnapshotsBody sdb g userId now days = .error e2) :
    recordDailySnapshotSafe sdb w userId now = (none, sdb) ∧
    generateHistoricalSnapshotsSafe sdb g userId now days = ([], sdb) ∧
    recordDailySnapshotSafe sdb ⟨.ok [], w.quotesRes, w.upsertRes⟩ userId now =
      (none, sdb) ∧
    generateHistoricalSnapshotsSafe sdb ⟨.ok [], g.historyRes, g.upsertOk⟩
      userId now days = ([], sdb) := by
  refine ⟨?_, ?_, rfl, rfl⟩
  · simp [recordDailySnapshotSafe, hw]
  · simp [generateHistoricalSnapshotsSafe, hg]

/-- C10 witness: a rejected portfolio query, through the theorem. -/
theorem snapshotService_swallows_errors_witness :
    recordDailySnapshotSafe [] recordWorldFail "u" 0 = (none, []) ∧
    generateHistoricalSnapshotsSafe [] genWorldFail "u" 0 3 = ([], []) ∧
    recordDailySnapshotSafe []
      ⟨.ok [], recordWorldFail.quotesRes, recordWorldFail.upsertRes⟩ "u" 0 =
      (none, []) ∧
    generateHistoricalSnapshotsSafe []
      ⟨.ok [], genWorldFail.historyRes, genWorldFail.upsertOk⟩ "u" 0 3 =
      ([], []) :=
  snapshotService_swallows_errors [] "u" 0 3 recordWorldFail genWorldFail
    "db down" "db down" rfl rfl

end WealthPilot
